import Mathlib

/-!
# Verification of the go-doh-client query core

A shallow embedding of the DoH client library (package `doh`): the cache
fingerprint (SHA-1 over domain/type/subnet), the TTL cache, the per-provider
reliability statistics and provider selection in `Query`, the racing result
collection in `collectResponses`, the error surfacing in `doRequest`/`goQuery`,
and the ECS helper `FixSubnet` together with the parts of Go's `net/netip`
parsing that it calls.

Machine integers are modelled as `Nat`/`Int` with explicit `% 2^w` wrapping
where the Go code can overflow; Go's `float64` statistics are modelled over
`ℚ` (the code only ever divides small exact integers).
-/

namespace DoH

/-! ## Go string helpers (`strings.TrimSpace`, `strings.Cut`) -/

/-- Go's `unicode.IsSpace`: the Latin-1 space characters together with the
Unicode `White_Space` code points. -/
def goIsSpace (c : Char) : Bool :=
  let n := c.toNat
  decide (9 ≤ n ∧ n ≤ 13) || decide (n = 32) || decide (n = 0x85) ||
  decide (n = 0xA0) || decide (n = 0x1680) ||
  decide (0x2000 ≤ n ∧ n ≤ 0x200A) || decide (n = 0x2028) ||
  decide (n = 0x2029) || decide (n = 0x202F) || decide (n = 0x205F) ||
  decide (n = 0x3000)

/-- Model of `strings.TrimSpace`: drop leading and trailing white space. -/
def trimSpace (s : String) : String :=
  String.mk (((s.data.dropWhile goIsSpace).reverse.dropWhile goIsSpace).reverse)

/-- The part of `s` before the first `'/'` — the first component of
`strings.Cut(s, "/")`; the whole string when there is no slash. -/
def ipPart (s : String) : String :=
  String.mk (s.data.takeWhile (fun c => decide (c ≠ '/')))

/-! ## UTF-8 bytes of a string (Go `[]byte(s)`) -/

/-- UTF-8 encoding of one code point. -/
def utf8Bytes (c : Char) : List Nat :=
  let n := c.toNat
  if n < 0x80 then [n]
  else if n < 0x800 then
    [0xC0 ||| (n >>> 6), 0x80 ||| (n &&& 0x3F)]
  else if n < 0x10000 then
    [0xE0 ||| (n >>> 12), 0x80 ||| ((n >>> 6) &&& 0x3F), 0x80 ||| (n &&& 0x3F)]
  else
    [0xF0 ||| (n >>> 18), 0x80 ||| ((n >>> 12) &&& 0x3F),
     0x80 ||| ((n >>> 6) &&& 0x3F), 0x80 ||| (n &&& 0x3F)]

/-- Go `[]byte(s)`: the UTF-8 bytes of a string. -/
def strBytes (s : String) : List Nat :=
  (s.data.map utf8Bytes).flatten

/-! ## SHA-1 (`crypto/sha1`) -/

/-- Rotate a 32-bit word left by `n` bits. -/
def rotl32 (x n : Nat) : Nat :=
  ((x <<< n) ||| (x >>> (32 - n))) % 2 ^ 32

/-- Big-endian byte decomposition of `v` into `w` bytes. -/
def beBytes (w v : Nat) : List Nat :=
  (List.range w).map (fun i => (v >>> (8 * (w - 1 - i))) % 256)

/-- SHA-1 message padding: append `0x80`, zeros up to 56 mod 64, and the
64-bit big-endian bit length. -/
def sha1Pad (msg : List Nat) : List Nat :=
  let L := msg.length
  let z := (64 + 56 - ((L + 1) % 64)) % 64
  msg ++ [0x80] ++ List.replicate z 0 ++ beBytes 8 ((8 * L) % 2 ^ 64)

/-- The 64-byte blocks of a padded message. -/
def sha1Blocks (padded : List Nat) : List (List Nat) :=
  (List.range (padded.length / 64)).map (fun i => (padded.drop (64 * i)).take 64)

/-- The 80-entry message schedule of one block. -/
def sha1Ws (block : List Nat) : List Nat :=
  let w16 := (List.range 16).map (fun i =>
    ((block.getD (4 * i) 0) <<< 24) ||| ((block.getD (4 * i + 1) 0) <<< 16) |||
    ((block.getD (4 * i + 2) 0) <<< 8) ||| (block.getD (4 * i + 3) 0))
  (List.range 64).foldl
    (fun ws _ =>
      let n := ws.length
      ws ++ [rotl32 ((ws.getD (n - 3) 0) ^^^ (ws.getD (n - 8) 0) ^^^
                     (ws.getD (n - 14) 0) ^^^ (ws.getD (n - 16) 0)) 1])
    w16

/-- One SHA-1 compression step over a 64-byte block. -/
def sha1Compress (h : Nat × Nat × Nat × Nat × Nat) (block : List Nat) :
    Nat × Nat × Nat × Nat × Nat :=
  let ws := sha1Ws block
  let (h0, h1, h2, h3, h4) := h
  let (a, b, c, d, e) := (List.range 80).foldl
    (fun st i =>
      let (a, b, c, d, e) := st
      let f :=
        if i < 20 then (b &&& c) ||| ((b ^^^ 0xFFFFFFFF) &&& d)
        else if i < 40 then b ^^^ c ^^^ d
        else if i < 60 then (b &&& c) ||| (b &&& d) ||| (c &&& d)
        else b ^^^ c ^^^ d
      let k :=
        if i < 20 then 0x5A827999
        else if i < 40 then 0x6ED9EBA1
        else if i < 60 then 0x8F1BBCDC
        else 0xCA62C1D6
      let temp := (rotl32 a 5 + f + e + k + ws.getD i 0) % 2 ^ 32
      (temp, a, rotl32 b 30, c, d))
    (h0, h1, h2, h3, h4)
  ((h0 + a) % 2 ^ 32, (h1 + b) % 2 ^ 32, (h2 + c) % 2 ^ 32,
   (h3 + d) % 2 ^ 32, (h4 + e) % 2 ^ 32)

/-- SHA-1 digest (20 bytes) of a byte list. -/
def sha1 (msg : List Nat) : List Nat :=
  let (h0, h1, h2, h3, h4) := (sha1Blocks (sha1Pad msg)).foldl sha1Compress
    (0x67452301, 0xEFCDAB89, 0x98BADCFE, 0x10325476, 0xC3D2E1F0)
  beBytes 4 h0 ++ beBytes 4 h1 ++ beBytes 4 h2 ++ beBytes 4 h3 ++ beBytes 4 h4

/-- A lowercase hexadecimal digit. -/
def hexDigit (n : Nat) : Char :=
  if n < 10 then Char.ofNat (48 + n) else Char.ofNat (87 + n)

/-- Model of `encoding/hex.EncodeToString`: lowercase hex of a byte list. -/
def hexEncode (bs : List Nat) : String :=
  String.mk ((bs.map (fun b => [hexDigit (b / 16), hexDigit (b % 16)])).flatten)

set_option maxRecDepth 40000 in
example : hexEncode (sha1 (strBytes "abc")) =
    "a9993e364706816aba3e25717850c26c9cd0d89d" := by decide

set_option maxRecDepth 40000 in
example : hexEncode (sha1 (strBytes "")) =
    "da39a3ee5e6b4b0d3255bfef95601890afd80709" := by decide

/-! ## DNS data model (`dns.go`) -/

/-- Model of `Question` of a DNS response (`dns.go`).  Go's `Type` field is renamed
`type'` because `Type` is reserved in Lean. -/
structure Question where
  Name : String
  type' : Int
deriving DecidableEq, Repr

/-- Model of `Answer` of a DNS response (`dns.go`). -/
structure Answer where
  Name : String
  type' : Int
  TTL : Int
  Data : String
deriving DecidableEq, Repr

/-- Model of `Response` of a DoH query (`dns.go`). -/
structure Response where
  Status : Int
  TC : Bool := false
  RD : Bool := false
  RA : Bool := false
  AD : Bool := false
  CD : Bool := false
  Question : List Question := []
  Answer : List Answer := []
  Provider : String := ""
deriving DecidableEq, Repr

/-! ## Association lists standing in for Go maps

Go map iteration order is unspecified; the list order of these association
lists models one iteration order.  Insertion of a fresh key appends at the
end; assignment to an existing key replaces it in place. -/

/-- Go map read `m[k]` (the `v, ok` form). -/
def assocGet {κ α : Type} [DecidableEq κ] : List (κ × α) → κ → Option α
  | [], _ => none
  | (k', v') :: rest, k => if k' = k then some v' else assocGet rest k

/-- Go map assignment `m[k] = v`. -/
def assocSet {κ α : Type} [DecidableEq κ] : List (κ × α) → κ → α → List (κ × α)
  | [], k, v => [(k, v)]
  | (k', v') :: rest, k, v =>
    if k' = k then (k, v) :: rest else (k', v') :: assocSet rest k v

/-! ## TTL cache (`cache.go`) -/

/-- Signed 64-bit wrap-around, as Go `int64` arithmetic overflows. -/
def wrap64 (x : Int) : Int := (x + 2 ^ 63) % 2 ^ 64 - 2 ^ 63

/-- Model of `cacheItem` (`cache.go`): value and expiration in Unix nanoseconds. -/
structure cacheItem where
  value : Response
  expiration : Int
deriving DecidableEq, Repr

/-- The `items` map of the `cache` struct. -/
abbrev CacheItems : Type := List (String × cacheItem)

/-- Model of `cache.Set` (`cache.go:41-49`): unconditionally insert/overwrite with
`expiration = time.Now().UnixNano() + ttl * int64(time.Second)`, where `now`
is the current Unix-nanosecond clock reading. -/
def cacheSet (items : CacheItems) (key : String) (value : Response)
    (now ttl : Int) : CacheItems :=
  let expiration := wrap64 (now + wrap64 (ttl * 1000000000))
  assocSet items key { value := value, expiration := expiration }

/-- Model of `cache.Get` (`cache.go:30-38`): `nil` when the key is missing or
`now > expiration`. -/
def cacheGet (items : CacheItems) (key : String) (now : Int) : Option Response :=
  match assocGet items key with
  | none => none
  | some item => if now > item.expiration then none else some item.value

/-! ## Cache fingerprint (`checkCache` / `updateCache`, part_000:214-227,274-287)

Both functions compute
`ss := ""; if len(s) > 0 && s[0] != "" { ss = strings.TrimSpace(string(s[0])) }`
and hash `string(d) + string(t) + ss` with SHA-1; note that the domain and the
type are **not** trimmed, only the optional subnet is. -/

/-- The subnet component `ss` of the fingerprint input: empty when the
variadic ECS argument is absent or the empty string, otherwise trimmed. -/
def subArg : Option String → String
  | none => ""
  | some s0 => if s0 ≠ "" then trimSpace s0 else ""

/-- The string whose SHA-1 is the cache key: raw domain, raw type, then the
subnet component. -/
def cacheKeyInput (d t : String) (s : Option String) : String :=
  d ++ t ++ subArg s

/-- The cache key: hex-encoded SHA-1 of `cacheKeyInput`. -/
def cacheKey (d t : String) (s : Option String) : String :=
  hexEncode (sha1 (strBytes (cacheKeyInput d t s)))

/-- Model of `checkCache` (part_000:214-227): look the fingerprint up in the cache. -/
def checkCache (items : CacheItems) (now : Int) (d t : String)
    (s : Option String) : Option Response :=
  cacheGet items (cacheKey d t s) now

/-- Model of `updateCache` (part_000:274-287): store the response under the
fingerprint with TTL = first answer's TTL, or 30 when there is no answer. -/
def updateCache (items : CacheItems) (now : Int) (d t : String)
    (s : Option String) (resp : Response) : CacheItems :=
  let ttl : Int :=
    match resp.Answer with
    | [] => 30
    | a :: _ => a.TTL
  cacheSet items (cacheKey d t s) resp now ttl

/-! ## Reliability statistics (`goQuery`, part_000:229-247)

`c.stats[k]` is the untyped triple `[]interface{}{failures, attempts, rate}`;
the rate is `float64(failures) / float64(attempts) * 100`, modelled over `ℚ`. -/

/-- One provider's statistics triple. -/
structure Stat where
  fail : Nat
  att : Nat
  rate : ℚ
deriving DecidableEq, Repr

/-- The `stats` map of the client, in iteration order. -/
abbrev Stats : Type := List (Nat × Stat)

/-- The triple update of `goQuery` (part_000:235-239): bump the attempt
count, bump the failure count if the attempt failed, recompute
`rate = float64(failures) / float64(attempts) * 100`. -/
def statUpdate (st : Stat) (failed : Bool) : Stat :=
  let att := st.att + 1
  let fail := if failed then st.fail + 1 else st.fail
  { fail := fail, att := att, rate := ((fail : Nat) : ℚ) / ((att : Nat) : ℚ) * 100 }

/-- The statistics update performed by `goQuery` (part_000:231-240): create a
zeroed record `{0, 0, 100.0}` if absent, then apply `statUpdate`. -/
def recordAttempt (stats : Stats) (k : Nat) (failed : Bool) : Stats :=
  let stats1 : Stats :=
    match assocGet stats k with
    | some _ => stats
    | none => stats ++ [(k, { fail := 0, att := 0, rate := 100 })]
  match assocGet stats1 k with
  | none => stats1
  | some st => assocSet stats1 k (statUpdate st failed)

/-- One iteration of the minimum-rate scan of `Query` (part_000:167-173):
`p` is the running `(minIndex, minRate)`. -/
def selStep (p : Int × ℚ) (kv : Nat × Stat) : Int × ℚ :=
  if kv.2.rate < p.2 then ((kv.1 : Int), kv.2.rate) else p

/-- The minimum-rate scan of `Query` (part_000:165-173): fold over the stats
records carrying `(minIndex, minRate)`, starting from `(-1, 101.0)`. -/
def selMin (stats : Stats) : Int × ℚ :=
  stats.foldl selStep (-1, 101)

/-- Provider selection in `Query` (part_000:160-184): with at least one stats
record, query only the provider with the lowest recorded failure rate;
otherwise (or if the scan found nothing) query every configured provider. -/
def selectProviders (stats : Stats) (urls : List String) : List (Nat × String) :=
  let urlsToQuery : List (Nat × String) :=
    if stats.length > 0 then
      let m := selMin stats
      if m.1 ≠ -1 then [(m.1.toNat, urls.getD m.1.toNat "")] else []
    else []
  if urlsToQuery.length = 0 then urls.enum else urlsToQuery

/-! ## Race coordination (`goQuery` / `collectResponses`, part_000:229-272)

Every attempt goroutine sends exactly one value on the shared channel `r`:
the `*Response` on success, the `error` otherwise.  `collectResponses`
consumes the channel in completion order.  We model the channel as the list
of values in the order they are received; an execution in which the receiver
waits forever (no further value ever arrives) is modelled by the outer
`Option` being `none`. -/

/-- The errors the query pipeline can produce (`fmt.Errorf` sites). -/
inductive QueryError where
  /-- Case: `buildRequest` failed (punycode conversion or invalid client subnet). -/
  | buildErr
  /-- Case: `httpClient.Do` failed. -/
  | httpErr
  /-- non-200 HTTP status (part_000:345-347). -/
  | statusCodeErr (code : Nat)
  /-- Case: `io.ReadAll` failed (part_000:349-352). -/
  | readErr
  /-- Case: `json.Unmarshal` failed (part_000:358-361). -/
  | unmarshalErr
  /-- nonzero DNS status in a decoded response (part_000:363-365). -/
  | dnsStatusErr (status : Int)
  /-- Case: the `"doh: all %d providers failed to respond"` fallback (part_000:271). -/
  | allFailed (n : Nat)
deriving DecidableEq, Repr

/-- A value sent on the result channel `r`: a `*Response` (possibly the nil
pointer) or an `error`. -/
inductive Outcome where
  | resp (r : Option Response)
  | err (e : QueryError)
deriving DecidableEq, Repr

/-- The loop of `collectResponses` (part_000:252-265), receiving the listed
values in order.  `none` means the loop never terminates: the channel is
never closed, so once the list is exhausted `range r` blocks forever. -/
def collectLoop : List Outcome → Nat → Nat → Option QueryError →
    Option (Option Response × Option QueryError)
  | [], _, _, _ => none
  | v :: rest, total, totalUrls, firstError =>
    let total := total + 1
    match v with
    | .resp r => some (r, none)
    | .err e =>
      let firstError := match firstError with
        | none => some e
        | some e0 => some e0
      if total ≥ totalUrls then
        some (none, some (match firstError with
          | some e0 => e0
          | none => .allFailed totalUrls))
      else collectLoop rest total totalUrls firstError

/-- Model of `collectResponses` (part_000:249-272) given the channel values in
completion order. -/
def collectResponses (msgs : List Outcome) (totalUrls : Nat) :
    Option (Option Response × Option QueryError) :=
  collectLoop msgs 0 totalUrls none

/-! ## `doRequest` (part_000:335-368) and the channel send of `goQuery` -/

/-- What the HTTP layer handed to one attempt: a transport error, or a
response with a status code and a body whose read and JSON decode are
modelled by their outcomes (`io.ReadAll` and `json.Unmarshal` are external
collaborators). -/
inductive FetchResult where
  | transportErr
  | httpResp (statusCode : Nat) (body : Option (Except Unit Response))

/-- Model of `doRequest` (part_000:335-368).  Returns the Go pair `(*Response, error)`.
Note the nonzero-DNS-status case returns **both** the decoded response and an
error. -/
def doRequest : FetchResult → Option Response × Option QueryError
  | .transportErr => (none, some .httpErr)
  | .httpResp code body =>
    if code ≠ 200 then (none, some (.statusCodeErr code))
    else
      match body with
      | none => (none, some .readErr)
      | some (.error _) => (none, some .unmarshalErr)
      | some (.ok rr) =>
        if rr.Status ≠ 0 then (some rr, some (.dnsStatusErr rr.Status))
        else (some rr, none)

/-- The channel send of `goQuery` (part_000:242-246): the error if there is
one, otherwise the response pointer.  The response half of the pair is
dropped whenever an error is present. -/
def goQueryMsg : Option Response × Option QueryError → Outcome
  | (_, some e) => .err e
  | (rsp, none) => .resp rsp

/-- One attempt as `goQuery` runs it: `buildRequest` either fails or the
request reaches the HTTP layer. -/
inductive AttemptEnv where
  | buildErr
  | fetch (fr : FetchResult)

/-- The `(rsp, err)` pair produced by `c.query` inside `goQuery`. -/
def queryAttempt : AttemptEnv → Option Response × Option QueryError
  | .buildErr => (none, some .buildErr)
  | .fetch fr => doRequest fr

/-! ## `fastQuery` (part_000:190-212)

Cache check, race, cache update.  The race itself is abstracted by the
channel contents `msgs` and the goroutine count `nUrls`. -/

/-- Model of `fastQuery`: result of the query and the cache contents afterwards.
`cacheOn` models `c.cache != nil`.  On a race success with a non-nil
response and caching on, the response is stored via `updateCache`.  (A
success carrying a nil `*Response` would make Go's `updateCache` dereference
nil; it is unreachable because `goQuery` never sends a nil response, see
`queryAttempt_no_nil_resp`.) -/
def fastQuery (cacheOn : Bool) (items : CacheItems) (now : Int)
    (d t : String) (s : Option String) (msgs : List Outcome) (nUrls : Nat) :
    Option (Option Response × Option QueryError) × CacheItems :=
  if cacheOn then
    match checkCache items now d t s with
    | some r => (some (some r, none), items)
    | none =>
      let res := collectResponses msgs nUrls
      match res with
      | some (some resp, none) => (res, updateCache items now d t s resp)
      | _ => (res, items)
  else
    (collectResponses msgs nUrls, items)

/-- Lemma: `goQuery` never sends a nil `*Response`: whenever `c.query` returns a nil
error, the response pointer is non-nil. -/
theorem queryAttempt_no_nil_resp (env : AttemptEnv) :
    queryAttempt env ≠ (none, none) := by
  cases env with
  | buildErr => simp [queryAttempt]
  | fetch fr =>
    cases fr with
    | transportErr => simp [queryAttempt, doRequest]
    | httpResp code body =>
      simp only [queryAttempt, doRequest]
      by_cases hc : code ≠ 200
      · simp [hc]
      · cases body with
        | none => simp [hc]
        | some pb =>
          cases pb with
          | error u => simp [hc]
          | ok rr =>
            by_cases hs : rr.Status ≠ 0 <;> simp [hc, hs]

/-! ## Go `net/netip`, as used by `FixSubnet` (`utils.go`)

`FixSubnet` calls `netip.ParsePrefix`, `netip.ParseAddr`, `netip.PrefixFrom`
and the `String` renderings.  These are modelled from the Go standard
library sources.  A `netip.Addr` is 16 bytes plus a marker for the address
family (`z4` vs `z6`) and an optional IPv6 zone; the zero (invalid) `Addr`
never escapes a successful parse and is not modelled. -/

/-- Model of `netip.Addr`: 16 bytes (IPv4 stored in 4-in-6 form), the `z4` marker,
and the zone. -/
structure Addr where
  b16 : List Nat
  v4 : Bool
  zone : String
deriving DecidableEq, Repr

/-- The field loop of `netip.parseIPv4`: `fields` are the finished octets,
`digLen` and `pval` the digit count and value of the current octet. -/
def parseIPv4Fields : List Char → List Nat → Nat → Nat → Except String (List Nat)
  | [], fields, _, pval =>
    if fields.length < 3 then .error "IPv4 address too short"
    else .ok (fields ++ [pval])
  | c :: rest, fields, digLen, pval =>
    if decide ('0' ≤ c ∧ c ≤ '9') then
      if digLen = 1 ∧ pval = 0 then .error "IPv4 field has octet with leading zero"
      else
        let pval := pval * 10 + (c.toNat - 48)
        if pval > 255 then .error "IPv4 field has value >255"
        else parseIPv4Fields rest fields (digLen + 1) pval
    else if c = '.' then
      if digLen = 0 ∨ rest = [] then .error "IPv4 field must have at least one digit"
      else if fields.length = 3 then .error "IPv4 address too long"
      else parseIPv4Fields rest (fields ++ [pval]) 0 0
    else .error "unexpected character"

/-- Model of `netip.parseIPv4`.  A parsed IPv4 address carries the 4-in-6 byte
layout with the `z4` marker, as `netip.AddrFrom4` does. -/
def parseIPv4 (s : String) : Except String Addr :=
  match parseIPv4Fields s.data [] 0 0 with
  | .error e => .error e
  | .ok fs => .ok { b16 := [0, 0, 0, 0, 0, 0, 0, 0, 0, 0, 0xFF, 0xFF] ++ fs,
                    v4 := true, zone := "" }

/-- A hexadecimal digit as accepted by `netip.parseIPv6`. -/
def isHexDigitGo (c : Char) : Bool :=
  decide (('0' ≤ c ∧ c ≤ '9') ∨ ('a' ≤ c ∧ c ≤ 'f') ∨ ('A' ≤ c ∧ c ≤ 'F'))

/-- Value of a hexadecimal digit. -/
def hexVal (c : Char) : Nat :=
  if decide ('0' ≤ c ∧ c ≤ '9') then c.toNat - 48
  else if decide ('a' ≤ c ∧ c ≤ 'f') then c.toNat - 87
  else c.toNat - 55

/-- The hex-group scan of `netip.parseIPv6`: consume up to four hex digits,
returning the accumulated value, the digit count, and the rest.  A fifth
digit is an error. -/
def hexGroup : List Char → Nat → Nat → Except String (Nat × Nat × List Char)
  | [], acc, off => .ok (acc, off, [])
  | c :: rest, acc, off =>
    if isHexDigitGo c then
      if off > 3 then .error "more than 4 hex digits in group"
      else hexGroup rest (acc * 16 + hexVal c) (off + 1)
    else .ok (acc, off, c :: rest)

/-- The main loop of `netip.parseIPv6` over the zone-stripped body.  `ip`
holds the bytes produced so far, `ell` the position of a `::` if one was
seen.  Returns the bytes, the ellipsis position, and the unconsumed rest.
The fuel argument only bounds recursion; every recursive call consumes at
least two characters, so `length + 1` fuel never runs out. -/
def parseIPv6Loop : Nat → List Char → List Nat → Option Nat →
    Except String (List Nat × Option Nat × List Char)
  | 0, _, _, _ => .error "parse fuel exhausted"
  | fuel + 1, s, ip, ell =>
    if ip.length < 16 then
      match hexGroup s 0 0 with
      | .error e => .error e
      | .ok (acc, off, rest) =>
        if off = 0 then
          .error "each colon-separated field must have at least one digit"
        else if rest.head? = some '.' then
          if ell = none ∧ ip.length ≠ 12 then
            .error "embedded IPv4 address must replace the final 2 fields of the address"
          else if ip.length + 4 > 16 then
            .error "too many hex fields to fit an embedded IPv4 at the end of the address"
          else
            match parseIPv4Fields s [] 0 0 with
            | .error e => .error e
            | .ok fs => .ok (ip ++ fs, ell, [])
        else
          let ip := ip ++ [acc / 256, acc % 256]
          match rest with
          | [] => .ok (ip, ell, [])
          | ':' :: rest2 =>
            match rest2 with
            | [] => .error "colon must be followed by more characters"
            | ':' :: rest3 =>
              if ell.isSome then .error "multiple :: in address"
              else if rest3 = [] then .ok (ip, some ip.length, [])
              else parseIPv6Loop fuel rest3 ip (some ip.length)
            | _ => parseIPv6Loop fuel rest2 ip ell
          | _ => .error "unexpected character, want colon or more digits"
    else .ok (ip, ell, s)

/-- Model of `netip.parseIPv6`: split off the zone, handle a leading `::`, run the
group loop, reject trailing garbage, and expand the ellipsis. -/
def parseIPv6 (input : String) : Except String Addr :=
  let all := input.data
  let body := all.takeWhile (fun c => decide (c ≠ '%'))
  let hasZone := body.length < all.length
  let zone := String.mk (all.drop (body.length + 1))
  if hasZone ∧ zone = "" then .error "zone must be a non-empty string"
  else
    let p : List Char × Option Nat :=
      match body with
      | ':' :: ':' :: rest => (rest, some 0)
      | _ => (body, none)
    if p.1 = [] ∧ p.2 = some 0 then
      .ok { b16 := List.replicate 16 0, v4 := false, zone := zone }
    else
      match parseIPv6Loop (p.1.length + 1) p.1 [] p.2 with
      | .error e => .error e
      | .ok (ip, ell, srem) =>
        if srem ≠ [] then .error "trailing garbage after address"
        else if ip.length < 16 then
          match ell with
          | none => .error "address string too short"
          | some e =>
            .ok { b16 := ip.take e ++ List.replicate (16 - ip.length) 0 ++ ip.drop e,
                  v4 := false, zone := zone }
        else
          if ell.isSome then .error "the :: must expand to at least one field of zeros"
          else .ok { b16 := ip, v4 := false, zone := zone }

/-- Model of `netip.ParseAddr`: dispatch on the first of `'.'`, `':'`, `'%'`. -/
def parseAddr (s : String) : Except String Addr :=
  match s.data.find? (fun c => decide (c = '.' ∨ c = ':' ∨ c = '%')) with
  | some c =>
    if c = '.' then parseIPv4 s
    else if c = ':' then parseIPv6 s
    else .error "missing IPv6 address"
  | none => .error "unable to parse IP"

/-- Model of `netip.Addr.Is4In6`. -/
def is4in6 (a : Addr) : Bool :=
  !a.v4 && decide (a.b16.take 12 = [0, 0, 0, 0, 0, 0, 0, 0, 0, 0, 0xFF, 0xFF])

/-- Dotted-quad rendering of the final four bytes (`netip.Addr.string4`). -/
def string4 (a : Addr) : String :=
  String.intercalate "." ((a.b16.drop 12).map Nat.repr)

/-- The eight 16-bit groups of an IPv6 address. -/
def v6Groups (a : Addr) : List Nat :=
  (List.range 8).map (fun i => a.b16.getD (2 * i) 0 * 256 + a.b16.getD (2 * i + 1) 0)

/-- First index `j ≥ i` with `j = 8` or a nonzero group at `j`. -/
def zeroRunEnd (gs : List Nat) : Nat → Nat → Nat
  | 0, i => i
  | fuel + 1, i => if i < 8 ∧ gs.getD i 1 = 0 then zeroRunEnd gs fuel (i + 1) else i

/-- The zero-compression window of `netip.Addr.string6`: the first longest
run of at least two zero groups, `(255, 255)` if none. -/
def bestZeroRun (gs : List Nat) : Nat × Nat :=
  (List.range 8).foldl
    (fun p i =>
      let j := zeroRunEnd gs 8 i
      if j - i ≥ 2 ∧ j - i > p.2 - p.1 then (i, j) else p)
    (255, 255)

/-- Lowercase hex without leading zeros. -/
def hex16 (n : Nat) : String := String.mk (Nat.toDigits 16 n)

/-- The rendering loop of `netip.Addr.string6`, compressing the groups in
`[zs, ze)` to `::`. -/
def string6Aux (gs : List Nat) (zs ze : Nat) : Nat → Nat → String → String
  | 0, _, acc => acc
  | fuel + 1, i, acc =>
    if i ≥ 8 then acc
    else if i = zs then
      let acc := acc ++ "::"
      if ze ≥ 8 then acc
      else string6Aux gs zs ze fuel (ze + 1) (acc ++ hex16 (gs.getD ze 0))
    else
      let acc := if i > 0 then acc ++ ":" else acc
      string6Aux gs zs ze fuel (i + 1) (acc ++ hex16 (gs.getD i 0))

/-- Model of `netip.Addr.string6` without the zone suffix. -/
def string6 (a : Addr) : String :=
  let gs := v6Groups a
  let zr := bestZeroRun gs
  string6Aux gs zr.1 zr.2 9 0 ""

/-- Model of `netip.Addr.String`: dotted quad for v4, `::ffff:`-prefixed dotted quad
for 4-in-6 addresses, compressed groups otherwise, with the zone appended. -/
def addrString (a : Addr) : String :=
  if a.v4 then string4 a
  else if is4in6 a then
    if a.zone ≠ "" then "::ffff:" ++ string4 a ++ "%" ++ a.zone
    else "::ffff:" ++ string4 a
  else
    if a.zone ≠ "" then string6 a ++ "%" ++ a.zone else string6 a

/-- Model of `netip.Prefix` restricted to the valid prefixes produced here: an
address (zone stripped) and a bit count already checked against the
family's bit length. -/
structure Cidr where
  addrv : Addr
  bits : Nat
deriving DecidableEq, Repr

/-- Model of `netip.PrefixFrom`: the address is stored without its zone. -/
def cidrFrom (a : Addr) (bits : Nat) : Cidr :=
  { addrv := { a with zone := "" }, bits := bits }

/-- Model of `netip.Prefix.String`. -/
def cidrString (p : Cidr) : String :=
  addrString p.addrv ++ "/" ++ Nat.repr p.bits

/-- Model of `strconv.Atoi`, as used for the bits of a prefix.  (Go accepts exactly
`-2^63` where this model reports a range error; `netip.ParsePrefix` rejects
that value as out of range anyway, so `parseCidr` is unaffected.) -/
def atoi (s : String) : Except String Int :=
  match s.data with
  | [] => .error "invalid syntax"
  | c :: rest =>
    let digits := if c = '-' ∨ c = '+' then rest else c :: rest
    if digits = [] then .error "invalid syntax"
    else if digits.all (fun d => decide ('0' ≤ d ∧ d ≤ '9')) then
      let v : Nat := digits.foldl (fun a d => a * 10 + (d.toNat - 48)) 0
      if v > 9223372036854775807 then .error "value out of range"
      else .ok (if c = '-' then -(v : Int) else (v : Int))
    else .error "invalid syntax"

/-- Split at the last `'/'` (`bytealg.LastIndexByteString`). -/
def lastSlashSplit (s : List Char) : Option (List Char × List Char) :=
  if s.contains '/' then
    let after := (s.reverse.takeWhile (fun c => decide (c ≠ '/'))).reverse
    some (s.take (s.length - after.length - 1), after)
  else none

/-- Model of `netip.ParsePrefix`. -/
def parseCidr (s : String) : Except String Cidr :=
  match lastSlashSplit s.data with
  | none => .error "no slash in prefix"
  | some (before, after) =>
    match parseAddr (String.mk before) with
    | .error e => .error e
    | .ok ip =>
      if ip.zone ≠ "" then .error "zones cannot be present in a prefix"
      else
        match atoi (String.mk after) with
        | .error _ => .error "bad bits after slash"
        | .ok bits =>
          let maxBits : Int := if ip.v4 then 32 else 128
          if bits < 0 ∨ bits > maxBits then .error "prefix length out of range"
          else .ok (cidrFrom ip bits.toNat)

/-- Model of `FixSubnet` (`utils.go:11-39`): accept a full CIDR as-is; otherwise
treat the text before the first slash as a bare IP and attach the default
ECS mask, `/24` for IPv4 and `/56` otherwise. -/
def FixSubnet (s : String) : Except String String :=
  match parseCidr (trimSpace s) with
  | .ok p => .ok (cidrString p)
  | .error _ =>
    match parseAddr (ipPart (trimSpace s)) with
    | .error e => .error ("invalid IP address: " ++ e)
    | .ok addr => .ok (cidrString (cidrFrom addr (if addr.v4 then 24 else 56)))

example : FixSubnet "1.2.3.4" = .ok "1.2.3.4/24" := by rfl
example : FixSubnet " 1.2.3.4/ " = .ok "1.2.3.4/24" := by rfl
example : FixSubnet "1.2.3.4/abc" = .ok "1.2.3.4/24" := by rfl
example : FixSubnet "8.8.8.8/32" = .ok "8.8.8.8/32" := by rfl
example : FixSubnet "1.2.3.4/33" = .ok "1.2.3.4/24" := by rfl
example : FixSubnet "2001:db8::1" = .ok "2001:db8::1/56" := by rfl
example : FixSubnet "2001:db8::/64" = .ok "2001:db8::/64" := by rfl
example : FixSubnet "::ffff:1.2.3.4" = .ok "::ffff:1.2.3.4/56" := by rfl
example : FixSubnet "fe80::1%eth0" = .ok "fe80::1/56" := by rfl
example : FixSubnet "abc" = .error "invalid IP address: unable to parse IP" := by rfl
example : FixSubnet "300.2.3.4" = .error "invalid IP address: IPv4 field has value >255" := by rfl

/-! ## Helper lemmas -/

theorem assocGet_assocSet {κ α : Type} [DecidableEq κ] (l : List (κ × α)) (k : κ) (v : α) :
    assocGet (assocSet l k v) k = some v := by
  induction l with
  | nil => simp [assocSet, assocGet]
  | cons kv rest ih =>
    obtain ⟨k', v'⟩ := kv
    by_cases h : k' = k <;> simp [assocSet, assocGet, h, ih]

theorem assocGet_append_of_none {κ α : Type} [DecidableEq κ] (l : List (κ × α)) (k : κ) (v : α)
    (h : assocGet l k = none) : assocGet (l ++ [(k, v)]) k = some v := by
  induction l with
  | nil => simp [assocGet]
  | cons kv rest ih =>
    obtain ⟨k', v'⟩ := kv
    by_cases hk : k' = k
    · simp [assocGet, hk] at h
    · simp only [assocGet, hk, if_false, List.cons_append] at h ⊢
      exact ih h

theorem wrap64_eq_self (x : Int) (h1 : -(2 ^ 63) ≤ x) (h2 : x < 2 ^ 63) : wrap64 x = x := by
  unfold wrap64
  rw [Int.emod_eq_of_lt (by omega) (by omega)]
  omega

/-! ## C10 — absent, empty and whitespace-only subnets share a fingerprint -/

/-- C10: a query with no client-subnet argument, with an empty-string subnet,
and with a whitespace-only subnet all derive the identical cache fingerprint,
so the three call forms read and write the same cache entry. -/
theorem cacheKey_subnet_absent_forms (d t ws : String) (h : trimSpace ws = "") :
    cacheKey d t (some ws) = cacheKey d t none ∧
    cacheKey d t (some "") = cacheKey d t none := by
  have key : ∀ s : Option String, subArg s = "" → cacheKey d t s = cacheKey d t none := by
    intro s hs
    unfold cacheKey cacheKeyInput
    rw [hs]
    rfl
  refine ⟨key _ ?_, key _ (by simp [subArg])⟩
  unfold subArg
  by_cases hws : ws = "" <;> simp [hws, h]

theorem cacheKey_subnet_absent_forms_witness :
    trimSpace "  " = "" ∧
    (cacheKey "example.com" "A" (some "  ") = cacheKey "example.com" "A" none ∧
     cacheKey "example.com" "A" (some "") = cacheKey "example.com" "A" none) :=
  ⟨by decide, cacheKey_subnet_absent_forms "example.com" "A" "  " (by decide)⟩

/-! ## C4 — the fingerprint does NOT trim domain and type

`checkCache`/`updateCache` hash `string(d) + string(t) + ss` where only the
subnet `ss` went through `strings.TrimSpace`; a whitespace difference in the
domain (or type) therefore changes the fingerprint. -/

set_option maxRecDepth 200000 in
/-- C4 counterexample: two queries whose domains differ only by a leading
space have **different** fingerprints, contradicting the claim that the
fingerprint is computed from the whitespace-trimmed domain and type. -/
theorem cacheKey_domain_whitespace_counterexample :
    cacheKey " example.com" "A" none ≠ cacheKey "example.com" "A" none := by
  decide

/-- C4 (amended): the fingerprint is computed from the **raw** domain, the
**raw** type and the whitespace-trimmed subnet, concatenated in fixed order
and hashed; hence subnet whitespace does not affect the fingerprint, while
whitespace in the domain changes the hashed input. -/
theorem cacheKey_trims_only_subnet (d t s1 s2 : String)
    (h1 : s1 ≠ "") (h2 : s2 ≠ "") (h : trimSpace s1 = trimSpace s2) :
    cacheKey d t (some s1) = cacheKey d t (some s2) ∧
    ∀ d' : String, cacheKeyInput (" " ++ d') t (some s1) ≠ cacheKeyInput d' t (some s1) := by
  constructor
  · unfold cacheKey cacheKeyInput subArg
    simp [h1, h2, h]
  · intro d' heq
    have := congrArg String.length heq
    simp [cacheKeyInput, String.length_append] at this
    exact absurd this (by decide)

theorem cacheKey_trims_only_subnet_witness :
    (" 1.2.3.4 " : String) ≠ "" ∧ ("1.2.3.4" : String) ≠ "" ∧
    trimSpace " 1.2.3.4 " = trimSpace "1.2.3.4" ∧
    cacheKey "example.com" "A" (some " 1.2.3.4 ") =
      cacheKey "example.com" "A" (some "1.2.3.4") :=
  ⟨by decide, by decide, by decide,
   (cacheKey_trims_only_subnet "example.com" "A" " 1.2.3.4 " "1.2.3.4"
     (by decide) (by decide) (by decide)).1⟩

/-! ## C5 — `cache.Set` has no 1-second TTL floor -/

/-- C5 counterexample: `Set` with `ttl = 0` at creation time 0 stores
expiration `0`, not `0 + max(0,1) * 1e9`, and the entry is already expired
one nanosecond later — not retrievable for at least one second. -/
theorem cacheSet_min_ttl_counterexample :
    assocGet (cacheSet [] "k" { Status := 0 } 0 0) "k" ≠
      some { value := { Status := 0 }, expiration := 0 + max (0 : Int) 1 * 1000000000 } ∧
    cacheGet (cacheSet [] "k" { Status := 0 } 0 0) "k" 1 = none := by
  exact ⟨by decide, by decide⟩

/-- C5 (amended): the stored expiration is exactly
`creationTime + ttlSeconds * 1e9` (in wrapping 64-bit arithmetic, here in
the non-overflowing range); there is no coercion of the TTL to a minimum of
one second, so a `ttl ≤ 0` entry is expired for every read strictly after
its creation instant. -/
theorem cacheSet_exact_expiration (items : CacheItems) (key : String) (v : Response)
    (now ttl : Int) (hn1 : -(2 ^ 61) ≤ now) (hn2 : now ≤ 2 ^ 61)
    (ht1 : -(2 ^ 32) ≤ ttl) (ht2 : ttl ≤ 2 ^ 32) :
    assocGet (cacheSet items key v now ttl) key =
      some { value := v, expiration := now + ttl * 1000000000 } ∧
    (ttl ≤ 0 → ∀ t : Int, now < t →
      cacheGet (cacheSet items key v now ttl) key t = none) := by
  have hw1 : wrap64 (ttl * 1000000000) = ttl * 1000000000 :=
    wrap64_eq_self _ (by omega) (by omega)
  have hw2 : wrap64 (now + ttl * 1000000000) = now + ttl * 1000000000 :=
    wrap64_eq_self _ (by omega) (by omega)
  have hset : assocGet (cacheSet items key v now ttl) key =
      some { value := v, expiration := now + ttl * 1000000000 } := by
    unfold cacheSet
    rw [hw1, hw2]
    exact assocGet_assocSet _ _ _
  refine ⟨hset, fun httl t ht => ?_⟩
  unfold cacheGet
  rw [hset]
  have : t > now + ttl * 1000000000 := by nlinarith
  simp [this]

theorem cacheSet_exact_expiration_witness :
    (-(2 ^ 61) : Int) ≤ 1000 ∧ (1000 : Int) ≤ 2 ^ 61 ∧
    (-(2 ^ 32) : Int) ≤ -5 ∧ (-5 : Int) ≤ 2 ^ 32 ∧
    assocGet (cacheSet [] "k" { Status := 0 } 1000 (-5)) "k" =
      some { value := { Status := 0 }, expiration := 1000 + -5 * 1000000000 } ∧
    cacheGet (cacheSet [] "k" { Status := 0 } 1000 (-5)) "k" 1001 = none := by
  have h := cacheSet_exact_expiration [] "k" { Status := 0 } 1000 (-5)
    (by decide) (by decide) (by decide) (by decide)
  exact ⟨by decide, by decide, by decide, by decide, h.1,
    h.2 (by decide) 1001 (by decide)⟩

/-! ## C7 — an empty provider set makes the coordinator block, not fail

With `totalUrls = 0` no goroutine is launched, so nothing is ever sent on
the channel; `for v := range r` waits for a first value that never comes
(the channel is also never closed).  The distinct
`"doh: all 0 providers failed"` error sits after the loop and is
unreachable. -/

/-- C7 counterexample: for the empty selected set (no channel messages, zero
goroutines), `collectResponses` does not return any failure — the claimed
distinct "no providers" error is never produced. -/
theorem collectResponses_empty_counterexample :
    ¬ ∃ e : QueryError, collectResponses [] 0 = some (none, some e) := by
  intro ⟨e, h⟩
  simp [collectResponses, collectLoop] at h

/-- C7 (amended): if the set of selected providers is empty, the race
coordinator never terminates — it blocks forever waiting on the result
channel and returns neither a response nor a failure. -/
theorem collectResponses_empty_blocks : collectResponses [] 0 = none := rfl

/-! ## C6 — a nonzero-status response loses the race but is dropped

`doRequest` returns `(rr, err)` with both non-nil when the body decodes but
`rr.Status != 0`; `goQuery` then sends only `err` on the channel
(part_000:242-246), so `collectResponses` — and hence the caller of
`Query` — receives `(nil, err)`: the partially-decoded response is *not*
made available to the caller. -/

/-- C6 counterexample: a decoded response with DNS status 3 is turned into a
bare error by `goQuery`; the race result carries **no** response alongside
the failure, contradicting the claim that the partially-decoded `Response`
is made available to the caller. -/
theorem dns_status_response_dropped_counterexample :
    doRequest (.httpResp 200 (some (.ok { Status := 3 }))) =
      (some { Status := 3 }, some (.dnsStatusErr 3)) ∧
    collectResponses [goQueryMsg (doRequest (.httpResp 200 (some (.ok { Status := 3 }))))] 1 =
      some (none, some (.dnsStatusErr 3)) ∧
    ∀ (r : Response) (e : Option QueryError),
      collectResponses [goQueryMsg (doRequest (.httpResp 200 (some (.ok { Status := 3 }))))] 1 ≠
        some (some r, e) := by
  refine ⟨rfl, rfl, ?_⟩
  intro r e h
  rw [show collectResponses [goQueryMsg (doRequest (.httpResp 200 (some (.ok { Status := 3 }))))] 1 =
      some (none, some (.dnsStatusErr 3)) from rfl] at h
  simp at h

/-- C6 (amended): a response that parses with nonzero DNS status is treated
as a failure for racing purposes — `doRequest` returns it together with an
error, `goQuery` forwards only the error, and the race yields that failure
with no response attached, so the partially-decoded response reaches only
`doRequest`'s internal caller, not the user of `Query`. -/
theorem dns_status_failure_surfacing (rr : Response) (h : rr.Status ≠ 0) :
    doRequest (.httpResp 200 (some (.ok rr))) = (some rr, some (.dnsStatusErr rr.Status)) ∧
    goQueryMsg (doRequest (.httpResp 200 (some (.ok rr)))) = .err (.dnsStatusErr rr.Status) ∧
    collectResponses [goQueryMsg (doRequest (.httpResp 200 (some (.ok rr))))] 1 =
      some (none, some (.dnsStatusErr rr.Status)) := by
  have hd : doRequest (.httpResp 200 (some (.ok rr))) =
      (some rr, some (.dnsStatusErr rr.Status)) := by
    simp [doRequest, h]
  refine ⟨hd, ?_, ?_⟩ <;> rw [hd] <;> rfl

theorem dns_status_failure_surfacing_witness :
    ({ Status := 3 } : Response).Status ≠ 0 ∧
    goQueryMsg (doRequest (.httpResp 200 (some (.ok ({ Status := 3 } : Response))))) =
      .err (.dnsStatusErr 3) :=
  ⟨by decide, (dns_status_failure_surfacing { Status := 3 } (by decide)).2.1⟩

/-! ## C8 — a race win is cached with the first answer's TTL (default 30) -/

/-- C8: on a cache miss with caching enabled, a successful race stores the
winning response under the query's fingerprint with
`ttl = resp.Answer[0].TTL` seconds (`30` when the answer list is empty), the
expiration being `now + ttl * 1e9` in the cache. -/
theorem fastQuery_caches_first_answer_ttl (items : CacheItems) (now : Int)
    (d t : String) (s : Option String) (msgs : List Outcome) (n : Nat) (resp : Response)
    (hmiss : checkCache items now d t s = none)
    (hwin : collectResponses msgs n = some (some resp, none)) :
    (fastQuery true items now d t s msgs n).1 = some (some resp, none) ∧
    (fastQuery true items now d t s msgs n).2 = updateCache items now d t s resp ∧
    assocGet (fastQuery true items now d t s msgs n).2 (cacheKey d t s) =
      some { value := resp,
             expiration := wrap64 (now + wrap64 ((match resp.Answer with
               | [] => (30 : Int)
               | a :: _ => a.TTL) * 1000000000)) } := by
  have h1 : fastQuery true items now d t s msgs n =
      (some (some resp, none), updateCache items now d t s resp) := by
    unfold fastQuery
    rw [hmiss, hwin]
    rfl
  refine ⟨by rw [h1], by rw [h1], ?_⟩
  rw [h1]
  unfold updateCache cacheSet
  exact assocGet_assocSet _ _ _

/-- A concrete winning response used to witness the cache-update theorem. -/
def resp60 : Response :=
  { Status := 0,
    Answer := [{ Name := "example.com", type' := 1, TTL := 60, Data := "93.184.216.34" }] }

theorem fastQuery_caches_first_answer_ttl_witness :
    checkCache [] 0 "example.com" "A" none = none ∧
    collectResponses [Outcome.resp (some resp60)] 1 = some (some resp60, none) ∧
    assocGet (fastQuery true [] 0 "example.com" "A" none
        [Outcome.resp (some resp60)] 1).2 (cacheKey "example.com" "A" none) =
      some { value := resp60,
             expiration := wrap64 (0 + wrap64 ((60 : Int) * 1000000000)) } :=
  ⟨rfl, rfl,
   (fastQuery_caches_first_answer_ttl [] 0 "example.com" "A" none
     [Outcome.resp (some resp60)] 1 resp60 rfl rfl).2.2⟩

/-! ## C1 — first success in completion order wins, else first error -/

/-- The first `*Response` value in the channel, in completion order. -/
def firstResp (msgs : List Outcome) : Option (Option Response) :=
  msgs.findSome? (fun m => match m with | .resp r => some r | .err _ => none)

/-- The first `error` value in the channel, in completion order. -/
def firstErr (msgs : List Outcome) : Option QueryError :=
  msgs.findSome? (fun m => match m with | .resp _ => none | .err e => some e)

theorem collectLoop_first_resp (msgs : List Outcome) :
    ∀ (total n : Nat) (fe : Option QueryError), total + msgs.length = n →
    ∀ r, firstResp msgs = some r → collectLoop msgs total n fe = some (r, none) := by
  induction msgs with
  | nil => intro total n fe _ r hr; simp [firstResp] at hr
  | cons m rest ih =>
    intro total n fe hlen r hr
    cases m with
    | resp r0 =>
      simp [firstResp] at hr
      simp [collectLoop, hr]
    | err e =>
      have hr' : firstResp rest = some r := by simpa [firstResp] using hr
      have hne : rest ≠ [] := by
        intro hrest; rw [hrest] at hr'; simp [firstResp] at hr'
      have hlt : ¬ (total + 1 ≥ n) := by
        have : rest.length ≥ 1 := by
          cases rest with
          | nil => exact absurd rfl hne
          | cons _ _ => simp
        simp at hlen
        omega
      show collectLoop (Outcome.err e :: rest) total n fe = some (r, none)
      unfold collectLoop
      simp only [hlt, if_false]
      apply ih (total + 1) n _ (by simp at hlen ⊢; omega) r hr'

theorem collectLoop_all_errors (msgs : List Outcome) :
    ∀ (total n : Nat) (fe : Option QueryError), total + msgs.length = n →
    msgs ≠ [] → firstResp msgs = none →
    collectLoop msgs total n fe =
      some (none, some (match fe with
        | some e0 => e0
        | none => (firstErr msgs).getD (.allFailed n))) := by
  induction msgs with
  | nil => intro _ _ _ _ h _; exact absurd rfl h
  | cons m rest ih =>
    intro total n fe hlen _ hnr
    cases m with
    | resp r0 => simp [firstResp] at hnr
    | err e =>
      have hfr : firstResp rest = none := by simpa [firstResp] using hnr
      have hfe : firstErr (Outcome.err e :: rest) = some e := by simp [firstErr]
      by_cases hrest : rest = []
      · subst hrest
        have hn : total + 1 = n := by simpa using hlen
        show collectLoop [Outcome.err e] total n fe = some _
        unfold collectLoop
        have : total + 1 ≥ n := by omega
        simp only [this, if_true]
        cases fe <;> simp [hfe]
      · have hlen' : total + 1 + rest.length = n := by simp at hlen; omega
        have hlt : ¬ (total + 1 ≥ n) := by
          have : rest.length ≥ 1 := by
            cases rest with
            | nil => exact absurd rfl hrest
            | cons _ _ => simp
          omega
        show collectLoop (Outcome.err e :: rest) total n fe = some _
        unfold collectLoop
        simp only [hlt, if_false]
        cases fe with
        | none =>
          rw [ih (total + 1) n (some e) hlen' hrest hfr]
          simp [hfe]
        | some e0 =>
          rw [ih (total + 1) n (some e0) hlen' hrest hfr]

/-- C1: for a race over a non-empty provider set, whatever the completion
order of the attempts' outcomes, `collectResponses` returns the first
`*Response` value as the success; if every attempt fails it returns the
first error in completion order (not the lowest-indexed provider's error). -/
theorem collectResponses_first_success_else_first_error
    (msgs : List Outcome) (n : Nat) (hlen : msgs.length = n) (hn : 0 < n) :
    (∀ r, firstResp msgs = some r → collectResponses msgs n = some (r, none)) ∧
    (firstResp msgs = none →
      ∃ e, firstErr msgs = some e ∧ collectResponses msgs n = some (none, some e)) := by
  constructor
  · intro r hr
    exact collectLoop_first_resp msgs 0 n none (by omega) r hr
  · intro hnr
    have hne : msgs ≠ [] := by
      intro h
      rw [h] at hlen
      simp at hlen
      omega
    have h2 := collectLoop_all_errors msgs 0 n none (by omega) hne hnr
    have hex : ∃ e, firstErr msgs = some e := by
      cases msgs with
      | nil => exact absurd rfl hne
      | cons m rest =>
        cases m with
        | resp r0 => simp [firstResp] at hnr
        | err e => exact ⟨e, by simp [firstErr]⟩
    obtain ⟨e, he⟩ := hex
    refine ⟨e, he, ?_⟩
    unfold collectResponses
    rw [h2, he]
    rfl

theorem collectResponses_race_witness :
    ([Outcome.err .httpErr, Outcome.resp (some { Status := 0 })].length = 2 ∧ (0 : Nat) < 2 ∧
      collectResponses [Outcome.err .httpErr, Outcome.resp (some { Status := 0 })] 2 =
        some (some { Status := 0 }, none)) ∧
    ([Outcome.err .readErr, Outcome.err .httpErr].length = 2 ∧
      collectResponses [Outcome.err .readErr, Outcome.err .httpErr] 2 =
        some (none, some .readErr)) := by
  constructor
  · exact ⟨rfl, by decide,
      (collectResponses_first_success_else_first_error
        [Outcome.err .httpErr, Outcome.resp (some { Status := 0 })] 2 rfl (by decide)).1
        (some { Status := 0 }) rfl⟩
  · refine ⟨rfl, ?_⟩
    obtain ⟨e, he, hc⟩ :=
      (collectResponses_first_success_else_first_error
        [Outcome.err .readErr, Outcome.err .httpErr] 2 rfl (by decide)).2 rfl
    have : e = .readErr := by simpa [firstErr] using he.symm
    rw [this] at hc
    exact hc

/-! ## C3 — the failure rate is exactly `100 * failures / attempts` -/

theorem recordAttempt_lookup (stats : Stats) (k : Nat) (failed : Bool) :
    assocGet (recordAttempt stats k failed) k =
      some (statUpdate ((assocGet stats k).getD { fail := 0, att := 0, rate := 100 }) failed) := by
  unfold recordAttempt
  cases h : assocGet stats k with
  | some st => simp [h, assocGet_assocSet]
  | none =>
    have h2 := assocGet_append_of_none stats k
      ({ fail := 0, att := 0, rate := 100 } : Stat) h
    simp [h, h2, assocGet_assocSet]

theorem statUpdate_rate (st : Stat) (failed : Bool) :
    (statUpdate st failed).rate =
      100 * ((statUpdate st failed).fail : ℚ) / ((statUpdate st failed).att : ℚ) := by
  unfold statUpdate
  dsimp
  ring

theorem recordAttempt_fold (k : Nat) :
    ∀ (outcomes : List Bool), outcomes ≠ [] →
    ∀ (stats : Stats) (f a : Nat) (ρ : ℚ),
      assocGet stats k = some { fail := f, att := a, rate := ρ } →
      assocGet (outcomes.foldl (fun s b => recordAttempt s k b) stats) k =
        some { fail := f + outcomes.count true, att := a + outcomes.length,
               rate := ((f + outcomes.count true : Nat) : ℚ) /
                 ((a + outcomes.length : Nat) : ℚ) * 100 } := by
  intro outcomes
  induction outcomes with
  | nil => intro h; exact absurd rfl h
  | cons b rest ih =>
    intro _ stats f a ρ h
    have hstep : assocGet (recordAttempt stats k b) k =
        some { fail := if b then f + 1 else f, att := a + 1,
               rate := ((if b then f + 1 else f : Nat) : ℚ) / ((a + 1 : Nat) : ℚ) * 100 } := by
      rw [recordAttempt_lookup, h]
      rfl
    rw [List.foldl_cons]
    by_cases hrest : rest = []
    · subst hrest
      rw [List.foldl_nil, hstep]
      cases b <;> simp
    · have ih' := ih hrest (recordAttempt stats k b) (if b then f + 1 else f) (a + 1) _ hstep
      rw [ih']
      have hf : (if b then f + 1 else f) + rest.count true = f + (b :: rest).count true := by
        cases b <;> simp [List.count_cons] <;> omega
      have ha : (a + 1) + rest.length = a + (b :: rest).length := by
        simp [List.length_cons]
        omega
      rw [hf, ha]

/-- C3: after every `recordAttempt`, the touched record satisfies
`failureRate = 100 * failureCount / attemptCount`; and starting from no
record, `N` attempts containing `failures` failed ones in any order yield
`failureRate = (failures / N) * 100` exactly (over the exact-rational model
of the `float64` arithmetic). -/
theorem recordAttempt_rate_invariant :
    (∀ (stats : Stats) (k : Nat) (failed : Bool) (r : Stat),
       assocGet (recordAttempt stats k failed) k = some r →
       r.rate = 100 * (r.fail : ℚ) / (r.att : ℚ)) ∧
    (∀ (k : Nat) (outcomes : List Bool) (stats : Stats),
       assocGet stats k = none → outcomes ≠ [] →
       assocGet (outcomes.foldl (fun s b => recordAttempt s k b) stats) k =
         some { fail := outcomes.count true, att := outcomes.length,
                rate := ((outcomes.count true : Nat) : ℚ) /
                  ((outcomes.length : Nat) : ℚ) * 100 }) := by
  constructor
  · intro stats k failed r h
    rw [recordAttempt_lookup] at h
    obtain rfl := (Option.some.inj h).symm
    exact statUpdate_rate _ _
  · intro k outcomes stats hnone hne
    cases outcomes with
    | nil => exact absurd rfl hne
    | cons b rest =>
      have hstep : assocGet (recordAttempt stats k b) k =
          some { fail := if b then 1 else 0, att := 1,
                 rate := ((if b then 1 else 0 : Nat) : ℚ) / ((1 : Nat) : ℚ) * 100 } := by
        rw [recordAttempt_lookup, hnone]
        cases b <;> rfl
      rw [List.foldl_cons]
      by_cases hrest : rest = []
      · subst hrest
        rw [List.foldl_nil, hstep]
        cases b <;> simp
      · have ih' := recordAttempt_fold k rest hrest (recordAttempt stats k b)
          (if b then 1 else 0) 1 _ hstep
        rw [ih']
        have hf : (if b then 1 else 0) + rest.count true = (b :: rest).count true := by
          cases b <;> simp [List.count_cons] <;> omega
        have ha : 1 + rest.length = (b :: rest).length := by
          simp [List.length_cons]
          omega
        rw [hf, ha]

theorem recordAttempt_rate_invariant_witness :
    assocGet ([] : Stats) 0 = none ∧ ([true, false, false] : List Bool) ≠ [] ∧
    assocGet ([true, false, false].foldl (fun s b => recordAttempt s 0 b) []) 0 =
      some { fail := 1, att := 3, rate := 100 / 3 } := by
  refine ⟨rfl, by decide, ?_⟩
  rw [recordAttempt_rate_invariant.2 0 [true, false, false] [] rfl (by decide)]
  norm_num

/-! ## C2 — selection returns the single best recorded provider, else all

Supporting association-list lemmas, the invariant `StatsWF` satisfied by
every reachable tracker state, and the minimum-scan fold lemmas. -/

theorem assocGet_mem {κ α : Type} [DecidableEq κ] (l : List (κ × α)) (k : κ) (v : α)
    (h : assocGet l k = some v) : (k, v) ∈ l := by
  induction l with
  | nil => simp [assocGet] at h
  | cons kv rest ih =>
    obtain ⟨k', v'⟩ := kv
    by_cases hk : k' = k
    · subst hk
      simp [assocGet] at h
      simp [h]
    · simp [assocGet, hk] at h
      simp [ih h]

theorem assocGet_none_not_mem {κ α : Type} [DecidableEq κ] (l : List (κ × α)) (k : κ)
    (h : assocGet l k = none) : k ∉ l.map Prod.fst := by
  induction l with
  | nil => simp
  | cons kv rest ih =>
    obtain ⟨k', v'⟩ := kv
    by_cases hk : k' = k
    · simp [assocGet, hk] at h
    · simp [assocGet, hk] at h
      simp [ih h]
      exact fun hc => hk hc.symm

theorem assocSet_keys {κ α : Type} [DecidableEq κ] (l : List (κ × α)) (k : κ) (v : α)
    (h : assocGet l k ≠ none) : (assocSet l k v).map Prod.fst = l.map Prod.fst := by
  induction l with
  | nil => simp [assocGet] at h
  | cons kv rest ih =>
    obtain ⟨k', v'⟩ := kv
    by_cases hk : k' = k
    · subst hk
      simp [assocSet]
    · simp only [assocGet, hk, if_false] at h
      simp [assocSet, hk, ih h]

theorem assocSet_mem {κ α : Type} [DecidableEq κ] (l : List (κ × α)) (k : κ) (v : α) :
    ∀ kv ∈ assocSet l k v, kv = (k, v) ∨ kv ∈ l := by
  induction l with
  | nil =>
    intro kv h
    simp [assocSet] at h
    exact Or.inl h
  | cons kv0 rest ih =>
    obtain ⟨k', v'⟩ := kv0
    intro kv h
    by_cases hk : k' = k
    · simp only [assocSet, hk, if_true, List.mem_cons] at h
      rcases h with h | h
      · exact Or.inl h
      · exact Or.inr (List.mem_cons_of_mem _ h)
    · simp only [assocSet, hk, if_false, List.mem_cons] at h
      rcases h with h | h
      · exact Or.inr (by simp [h])
      · rcases ih kv h with h' | h'
        · exact Or.inl h'
        · exact Or.inr (List.mem_cons_of_mem _ h')

/-- Two entries with the same key in a list with `Nodup` keys are equal. -/
theorem assoc_nodup_eq {κ α : Type} [DecidableEq κ] :
    ∀ (l : List (κ × α)), (l.map Prod.fst).Nodup →
    ∀ (k : κ) (v w : α), (k, v) ∈ l → (k, w) ∈ l → v = w := by
  intro l
  induction l with
  | nil => intro _ k v w hv; simp at hv
  | cons kv0 rest ih =>
    intro hnd k v w hv hw
    obtain ⟨k0, v0⟩ := kv0
    simp only [List.map_cons, List.nodup_cons] at hnd
    rcases List.mem_cons.mp hv with hv1 | hv1 <;> rcases List.mem_cons.mp hw with hw1 | hw1
    · rw [((Prod.mk.injEq _ _ _ _).mp hv1).2, ((Prod.mk.injEq _ _ _ _).mp hw1).2]
    · exfalso
      apply hnd.1
      have hk : k = k0 := ((Prod.mk.injEq _ _ _ _).mp hv1).1
      rw [← hk]
      exact List.mem_map.mpr ⟨(k, w), hw1, rfl⟩
    · exfalso
      apply hnd.1
      have hk : k = k0 := ((Prod.mk.injEq _ _ _ _).mp hw1).1
      rw [← hk]
      exact List.mem_map.mpr ⟨(k, v), hv1, rfl⟩
    · exact ih hnd.2 k v w hv1 hw1

/-- The invariant of reachable tracker states: distinct keys, and every
record has `failures ≤ attempts` and a rate in `[0, 100]`. -/
def StatsWF (stats : Stats) : Prop :=
  (stats.map Prod.fst).Nodup ∧
  ∀ kv ∈ stats, kv.2.fail ≤ kv.2.att ∧ 0 ≤ kv.2.rate ∧ kv.2.rate ≤ 100

theorem statUpdate_wf (st : Stat) (failed : Bool) (h : st.fail ≤ st.att) :
    (statUpdate st failed).fail ≤ (statUpdate st failed).att ∧
    0 ≤ (statUpdate st failed).rate ∧ (statUpdate st failed).rate ≤ 100 := by
  unfold statUpdate
  dsimp
  refine ⟨by cases failed <;> simp <;> omega, by positivity, ?_⟩
  have hatt : (0 : ℚ) < ((st.att + 1 : Nat) : ℚ) := by
    exact_mod_cast Nat.succ_pos st.att
  rw [div_mul_eq_mul_div, div_le_iff hatt]
  have hle : ((if failed then st.fail + 1 else st.fail : Nat) : ℚ) ≤ ((st.att + 1 : Nat) : ℚ) := by
    exact_mod_cast (by cases failed <;> simp <;> omega : (if failed then st.fail + 1 else st.fail) ≤ st.att + 1)
  nlinarith

theorem wf_set_step (stats1 : Stats) (k : Nat) (failed : Bool) (st : Stat)
    (hnd : (stats1.map Prod.fst).Nodup)
    (hval : ∀ kv ∈ stats1, kv.2.fail ≤ kv.2.att ∧ 0 ≤ kv.2.rate ∧ kv.2.rate ≤ 100)
    (hg : assocGet stats1 k = some st) :
    StatsWF (assocSet stats1 k (statUpdate st failed)) := by
  constructor
  · rw [assocSet_keys _ _ _ (by rw [hg]; exact fun hc => Option.noConfusion hc)]
    exact hnd
  · intro kv hkv
    rcases assocSet_mem _ _ _ kv hkv with rfl | hmem
    · exact statUpdate_wf st failed (hval (k, st) (assocGet_mem _ _ _ hg)).1
    · exact hval kv hmem

/-- Every `recordAttempt` preserves `StatsWF`; with `StatsWF []` this makes
`StatsWF` hold of every reachable tracker state. -/
theorem recordAttempt_preserves_wf (stats : Stats) (k : Nat) (failed : Bool)
    (h : StatsWF stats) : StatsWF (recordAttempt stats k failed) := by
  obtain ⟨hnd, hval⟩ := h
  unfold recordAttempt
  cases hg : assocGet stats k with
  | some st =>
    simp only [hg]
    exact wf_set_step stats k failed st hnd hval hg
  | none =>
    have h2 := assocGet_append_of_none stats k
      ({ fail := 0, att := 0, rate := 100 } : Stat) hg
    simp only [hg, h2]
    apply wf_set_step _ k failed _ ?_ ?_ h2
    · rw [List.map_append]
      simp only [List.map_cons, List.map_nil]
      rw [List.nodup_append]
      exact ⟨hnd, List.nodup_singleton k,
        by simpa using fun hc => assocGet_none_not_mem stats k hg hc⟩
    · intro kv hkv
      rcases List.mem_append.mp hkv with hmem | hmem
      · exact hval kv hmem
      · simp at hmem
        rw [hmem]
        dsimp
        refine ⟨le_refl _, by norm_num, le_refl _⟩

theorem selMin_foldl_spec (stats : Stats) : ∀ p : Int × ℚ,
    (stats.foldl selStep p = p ∨
      ∃ kv ∈ stats, stats.foldl selStep p = ((kv.1 : Int), kv.2.rate)) ∧
    (stats.foldl selStep p).2 ≤ p.2 ∧
    ∀ kv ∈ stats, (stats.foldl selStep p).2 ≤ kv.2.rate := by
  induction stats with
  | nil => intro p; exact ⟨Or.inl rfl, le_refl _, by simp⟩
  | cons kv0 rest ih =>
    intro p
    rw [List.foldl_cons]
    obtain ⟨hshape, hle, hall⟩ := ih (selStep p kv0)
    have hstep_le : (selStep p kv0).2 ≤ p.2 := by
      unfold selStep
      split_ifs with h
      · exact le_of_lt h
      · exact le_refl _
    have hstep_kv : (selStep p kv0).2 ≤ kv0.2.rate := by
      unfold selStep
      split_ifs with h
      · exact le_refl _
      · exact not_lt.mp h
    refine ⟨?_, le_trans hle hstep_le, ?_⟩
    · rcases hshape with heq | ⟨kv, hmem, heq⟩
      · rw [heq]
        unfold selStep
        split_ifs with h
        · exact Or.inr ⟨kv0, by simp, rfl⟩
        · exact Or.inl rfl
      · exact Or.inr ⟨kv, by simp [hmem], heq⟩
    · intro kv hkv
      rcases List.mem_cons.mp hkv with rfl | hmem
      · exact le_trans hle hstep_kv
      · exact hall kv hmem

theorem selMin_foldl_stay : ∀ (stats : Stats) (p : Int × ℚ),
    (∀ kv ∈ stats, ¬ (kv.2.rate < p.2)) → stats.foldl selStep p = p := by
  intro stats
  induction stats with
  | nil => intro p _; rfl
  | cons kv0 rest ih =>
    intro p hstay
    rw [List.foldl_cons]
    have h0 : selStep p kv0 = p := by
      unfold selStep
      rw [if_neg (hstay kv0 (by simp))]
    rw [h0]
    exact ih p (fun kv hkv => hstay kv (by simp [hkv]))

theorem selMin_foldl_strict (k0 : Nat) (v0 : Stat) : ∀ (stats : Stats) (p : Int × ℚ),
    (k0, v0) ∈ stats → v0.rate < p.2 →
    (∀ kv ∈ stats, kv.1 ≠ k0 → v0.rate < kv.2.rate) →
    (∀ kv ∈ stats, kv.1 = k0 → kv.2 = v0) →
    stats.foldl selStep p = ((k0 : Int), v0.rate) := by
  intro stats
  induction stats with
  | nil => intro p h; simp at h
  | cons kv0 rest ih =>
    intro p hmem hlt hstrict hdup
    rw [List.foldl_cons]
    by_cases hk : kv0.1 = k0
    · have hv : kv0.2 = v0 := hdup kv0 (by simp) hk
      have hstep : selStep p kv0 = ((k0 : Int), v0.rate) := by
        unfold selStep
        rw [hv, hk, if_pos hlt]
      rw [hstep]
      apply selMin_foldl_stay
      intro kv hkv
      by_cases hkk : kv.1 = k0
      · rw [hdup kv (by simp [hkv]) hkk]
        simp
      · have := hstrict kv (by simp [hkv]) hkk
        simp only [not_lt]
        linarith
    · have hmem' : (k0, v0) ∈ rest := by
        rcases List.mem_cons.mp hmem with heq | h
        · exact absurd (congrArg Prod.fst heq.symm) hk
        · exact h
      have hlt' : v0.rate < (selStep p kv0).2 := by
        unfold selStep
        split_ifs with h
        · simpa using hstrict kv0 (by simp) hk
        · exact hlt
      exact ih (selStep p kv0) hmem' hlt'
        (fun kv h => hstrict kv (by simp [h]))
        (fun kv h => hdup kv (by simp [h]))

theorem selectProviders_of_selMin (stats : Stats) (urls : List String) (k : Nat) (r : ℚ)
    (hne : stats ≠ []) (heq : selMin stats = ((k : Int), r)) :
    selectProviders stats urls = [(k, urls.getD k "")] := by
  have hgt : 0 < stats.length := List.length_pos.mpr hne
  have hne1 : ((k : Int)) ≠ -1 := by omega
  simp [selectProviders, heq, hgt, hne1]

/-- C2: with at least one stats record, `Query` selects exactly one
provider — a recorded one of minimal failure rate, and the unique strict
minimiser whenever one exists; with no records it selects every configured
provider. -/
theorem query_selection (stats : Stats) (urls : List String) (hwf : StatsWF stats) :
    (stats = [] → selectProviders stats urls = urls.enum) ∧
    (stats ≠ [] → ∃ k v, (k, v) ∈ stats ∧
        selectProviders stats urls = [(k, urls.getD k "")] ∧
        ∀ kv ∈ stats, v.rate ≤ kv.2.rate) ∧
    (∀ k0 v0, (k0, v0) ∈ stats →
        (∀ kv ∈ stats, kv.1 ≠ k0 → v0.rate < kv.2.rate) →
        selectProviders stats urls = [(k0, urls.getD k0 "")]) := by
  refine ⟨?_, ?_, ?_⟩
  · intro h
    subst h
    rfl
  · intro hne
    obtain ⟨hshape, _, hall⟩ := selMin_foldl_spec stats (-1, 101)
    have hsel : ∃ kv ∈ stats, stats.foldl selStep (-1, 101) = ((kv.1 : Int), kv.2.rate) := by
      rcases hshape with heq | h
      · exfalso
        cases stats with
        | nil => exact hne rfl
        | cons kv0 rest =>
          have h100 := (hwf.2 kv0 (by simp)).2.2
          have hle0 := hall kv0 (by simp)
          rw [heq] at hle0
          simp at hle0
          linarith
      · exact h
    obtain ⟨kv, hmem, heq⟩ := hsel
    refine ⟨kv.1, kv.2, by simpa using hmem, ?_, ?_⟩
    · exact selectProviders_of_selMin stats urls kv.1 kv.2.rate hne heq
    · intro kv' hkv'
      have := hall kv' hkv'
      rw [heq] at this
      simpa using this
  · intro k0 v0 hmem hstrict
    have h100 := (hwf.2 (k0, v0) hmem).2.2
    have hdup : ∀ kv ∈ stats, kv.1 = k0 → kv.2 = v0 := by
      intro kv hkv hk
      have : (k0, kv.2) ∈ stats := by
        rw [← hk]
        exact hkv
      exact assoc_nodup_eq stats hwf.1 k0 kv.2 v0 this hmem
    have hne : stats ≠ [] := by
      intro h
      rw [h] at hmem
      simp at hmem
    have heq := selMin_foldl_strict k0 v0 stats (-1, 101) hmem (by simp; linarith)
      hstrict hdup
    exact selectProviders_of_selMin stats urls k0 v0.rate hne heq

/-- The concrete tracker state used to witness the selection theorem. -/
def statsW : Stats :=
  [(0, { fail := 1, att := 2, rate := 50 }), (1, { fail := 0, att := 2, rate := 0 })]

theorem query_selection_witness :
    StatsWF statsW ∧
    (1, ({ fail := 0, att := 2, rate := 0 } : Stat)) ∈ statsW ∧
    (∀ kv ∈ statsW, kv.1 ≠ 1 → (0 : ℚ) < kv.2.rate) ∧
    selectProviders statsW ["u0", "u1"] = [(1, ["u0", "u1"].getD 1 "")] := by
  have hwf : StatsWF statsW := by
    constructor
    · decide
    · decide
  refine ⟨hwf, by decide, by decide, ?_⟩
  exact (query_selection statsW ["u0", "u1"] hwf).2.2 1
    { fail := 0, att := 2, rate := 0 } (by decide) (by decide)

/-! ## C9 — `FixSubnet` applies the default ECS mask to bare addresses -/

/-- C9: when the (trimmed) input is not a valid CIDR as a whole but the text
before its first `'/'` parses as an IP address `a`, `FixSubnet` returns that
address with the default mask — `/24` if `a` is IPv4, `/56` otherwise — and
no error (the rendered address is `a` itself whenever `a` carries no IPv6
zone; `netip.PrefixFrom` strips a zone); and `FixSubnet` returns an error
only when the text before the first `'/'` is not a valid IP address. -/
theorem fixSubnet_default_mask :
    (∀ (s : String) (a : Addr),
       (∀ p, parseCidr (trimSpace s) ≠ .ok p) →
       parseAddr (ipPart (trimSpace s)) = .ok a →
       FixSubnet s = .ok (addrString { a with zone := "" } ++ "/" ++
         (if a.v4 then "24" else "56")) ∧
       (a.zone = "" →
         FixSubnet s = .ok (addrString a ++ "/" ++ (if a.v4 then "24" else "56")))) ∧
    (∀ (s e : String), FixSubnet s = .error e →
       ∃ e', parseAddr (ipPart (trimSpace s)) = .error e') := by
  constructor
  · intro s a hp ha
    have hcid : ∃ e0, parseCidr (trimSpace s) = .error e0 := by
      cases h : parseCidr (trimSpace s) with
      | ok p => exact absurd h (hp p)
      | error e0 => exact ⟨e0, rfl⟩
    obtain ⟨e0, he0⟩ := hcid
    have hfix : FixSubnet s =
        .ok (cidrString (cidrFrom a (if a.v4 then 24 else 56))) := by
      unfold FixSubnet
      rw [he0, ha]
    have hzeq : a.zone = "" → ({ a with zone := "" } : Addr) = a := by
      intro hz
      obtain ⟨b, v, z⟩ := a
      simp only at hz
      rw [hz]
    have hmain : FixSubnet s = .ok (addrString { a with zone := "" } ++ "/" ++
        (if a.v4 then "24" else "56")) := by
      rw [hfix]
      show Except.ok (addrString { a with zone := "" } ++ "/" ++
        Nat.repr (if a.v4 then 24 else 56)) = _
      cases hv : a.v4 <;> rfl
    refine ⟨hmain, fun hz => ?_⟩
    rw [hmain, hzeq hz]
  · intro s e hfe
    unfold FixSubnet at hfe
    cases hc : parseCidr (trimSpace s) with
    | ok p =>
      rw [hc] at hfe
      exact Except.noConfusion hfe
    | error e0 =>
      rw [hc] at hfe
      cases hpa : parseAddr (ipPart (trimSpace s)) with
      | ok a =>
        rw [hpa] at hfe
        exact Except.noConfusion hfe
      | error e' => exact ⟨e', rfl⟩

/-- The parsed form of `"1.2.3.4"`: the 4-in-6 bytes with the `z4` marker. -/
def addr1234 : Addr :=
  { b16 := [0, 0, 0, 0, 0, 0, 0, 0, 0, 0, 0xFF, 0xFF, 1, 2, 3, 4], v4 := true, zone := "" }

theorem fixSubnet_default_mask_witness :
    (∀ p, parseCidr (trimSpace " 1.2.3.4/abc") ≠ .ok p) ∧
    parseAddr (ipPart (trimSpace " 1.2.3.4/abc")) = .ok addr1234 ∧
    FixSubnet " 1.2.3.4/abc" = .ok "1.2.3.4/24" ∧
    FixSubnet "zzz" = .error "invalid IP address: unable to parse IP" ∧
    ∃ e', parseAddr (ipPart (trimSpace "zzz")) = .error e' := by
  have hp : ∀ p, parseCidr (trimSpace " 1.2.3.4/abc") ≠ .ok p := by
    intro p h
    rw [show parseCidr (trimSpace " 1.2.3.4/abc") = .error "bad bits after slash" from rfl] at h
    exact Except.noConfusion h
  refine ⟨hp, rfl, ?_, rfl, ?_⟩
  · have h := (fixSubnet_default_mask.1 " 1.2.3.4/abc" addr1234 hp rfl).2 rfl
    exact h.trans (by rfl)
  · exact fixSubnet_default_mask.2 "zzz" "invalid IP address: unable to parse IP" rfl

end DoH
